import Mathlib

/-!
Verification development for the `symbolic_math` crate.

The Rust sources embedded here:
  * `src/expr.rs`     — the `Expr` enum, derived `PartialEq`, and `Expr::eval`
  * `src/simplify.rs` — `Expr::simplify` (with `is_const` / `get_const`)
  * `src/expr/expansion.rs` — `Expr::expand`

`f64` is modelled by the type `F` below: an exact rational (`F.fin`) together
with the three non-finite classes `nan`, `inf` (`+∞`), `ninf` (`-∞`).  The
model idealises finite arithmetic (exact rationals, a single zero, no
overflow/rounding) and keeps the IEEE-754 behaviour the program actually
inspects: `NaN` is not equal to itself under `==`, non-finite operands
propagate through the arithmetic operators, and `powf` classifies its result
as finite / infinite / NaN.
-/

namespace SymbolicMath

/-- Model of Rust `f64`: an exact finite rational, or one of the
non-finite IEEE classes. -/
inductive F where
  | fin (q : ℚ)
  | nan
  | inf
  | ninf
deriving DecidableEq, Repr

namespace F

/-- IEEE `==` on `f64` (the comparison behind the derived `PartialEq` of
`Expr` and behind every `*c == 0.0`-style guard in `simplify`):
`NaN` compares unequal to everything, itself included. -/
def feq : F → F → Bool
  | fin a, fin b => a = b
  | inf, inf => true
  | ninf, ninf => true
  | _, _ => false

/-- Rust `f64::is_nan`. -/
def isNan : F → Bool
  | nan => true
  | _ => false

/-- Rust `f64::is_infinite`. -/
def isInfinite : F → Bool
  | inf => true
  | ninf => true
  | _ => false

/-- IEEE `+` on the model. -/
def add : F → F → F
  | nan, _ => nan
  | _, nan => nan
  | fin a, fin b => fin (a + b)
  | inf, ninf => nan
  | ninf, inf => nan
  | inf, _ => inf
  | _, inf => inf
  | ninf, _ => ninf
  | _, ninf => ninf

/-- IEEE `-` on the model. -/
def sub : F → F → F
  | nan, _ => nan
  | _, nan => nan
  | fin a, fin b => fin (a - b)
  | inf, inf => nan
  | ninf, ninf => nan
  | inf, _ => inf
  | _, inf => ninf
  | ninf, _ => ninf
  | _, ninf => inf

/-- IEEE `*` on the model (`0 * ±∞ = NaN`). -/
def mul : F → F → F
  | nan, _ => nan
  | _, nan => nan
  | fin a, fin b => fin (a * b)
  | inf, fin b => if b = 0 then nan else if 0 < b then inf else ninf
  | fin a, inf => if a = 0 then nan else if 0 < a then inf else ninf
  | ninf, fin b => if b = 0 then nan else if 0 < b then ninf else inf
  | fin a, ninf => if a = 0 then nan else if 0 < a then ninf else inf
  | inf, inf => inf
  | inf, ninf => ninf
  | ninf, inf => ninf
  | ninf, ninf => inf

/-- IEEE `/` on the model.  The model has a single zero, taken as `+0`,
so `x / 0` follows the sign of `x` (`0 / 0 = NaN`). -/
def div : F → F → F
  | nan, _ => nan
  | _, nan => nan
  | fin a, fin b =>
      if b = 0 then (if a = 0 then nan else if 0 < a then inf else ninf)
      else fin (a / b)
  | fin _, inf => fin 0
  | fin _, ninf => fin 0
  | inf, fin b => if 0 ≤ b then inf else ninf
  | ninf, fin b => if 0 ≤ b then ninf else inf
  | inf, _ => nan
  | ninf, _ => nan

/-- IEEE unary `-` on the model. -/
def neg : F → F
  | fin a => fin (-a)
  | nan => nan
  | inf => ninf
  | ninf => inf

/-- Model of `f64::powf`.  All IEEE special cases relevant to
classification are kept: `pow(x, 0) = 1` and `pow(1, y) = 1` even for NaN
arguments, a negative finite base with a non-integer exponent gives NaN,
zero and infinite bases/exponents follow the IEEE sign/magnitude rules.
For a positive finite base with a non-integer exponent the true IEEE
result is a finite positive real that is in general irrational; the model
returns the finite stand-in `b ^ ⌊e⌋`, which agrees with `powf` on the
finite / infinite / NaN classification — the only property `eval`
inspects — and is exact whenever the exponent is an integer. -/
def powf : F → F → F
  | b, fin e =>
      if e = 0 then fin 1
      else
        match b with
        | fin bq =>
            if bq = 1 then fin 1
            else if bq = 0 then (if 0 < e then fin 0 else inf)
            else if 0 < bq then fin (bq ^ Rat.floor e)
            else if e.den = 1 then fin (bq ^ e.num)
            else nan
        | nan => nan
        | inf => if 0 < e then inf else fin 0
        | ninf =>
            if 0 < e then (if e.den = 1 ∧ e.num % 2 = 1 then ninf else inf)
            else fin 0
  | b, nan =>
      match b with
      | fin bq => if bq = 1 then fin 1 else nan
      | _ => nan
  | b, inf =>
      match b with
      | fin bq => if |bq| < 1 then fin 0 else if |bq| = 1 then fin 1 else inf
      | nan => nan
      | inf => inf
      | ninf => inf
  | b, ninf =>
      match b with
      | fin bq => if |bq| < 1 then inf else if |bq| = 1 then fin 1 else fin 0
      | nan => nan
      | inf => fin 0
      | ninf => fin 0

end F

/-- From `src/symbol.rs`: a variable name; equality is structural (by name). -/
structure Symbol where
  name : String
deriving DecidableEq, Repr

/-- From `src/expr.rs`: the expression tree.  Children are boxed in Rust;
the indirection is immaterial to the model. -/
inductive Expr where
  | Const (c : F)
  | Symbol (s : Symbol)
  | Add (l r : Expr)
  | Sub (l r : Expr)
  | Mul (l r : Expr)
  | Div (l r : Expr)
  | Pow (l r : Expr)
  | Neg (e : Expr)
deriving DecidableEq, Repr

/-- From `src/expr.rs`: the two evaluation errors. -/
inductive EvalError where
  | SymbolNotFound (s : Symbol)
  | UndefinedOperation
deriving DecidableEq, Repr

/-- A binding environment: the `HashMap<Symbol, f64>` handed to `eval`,
modelled by its lookup function (`vars.get`). -/
def Bindings : Type := Symbol → Option F

namespace Expr

/-- The `#[derive(PartialEq)]` structural equality on `Expr`: same variant,
children compared recursively, constants compared with IEEE `==`.  This is
the `==` used by every guard in `simplify`.  It is *not* propositional
equality: `beq (Const nan) (Const nan) = false`. -/
def beq : Expr → Expr → Bool
  | Const a, Const b => F.feq a b
  | Symbol a, Symbol b => a = b
  | Add l1 r1, Add l2 r2 => beq l1 l2 && beq r1 r2
  | Sub l1 r1, Sub l2 r2 => beq l1 l2 && beq r1 r2
  | Mul l1 r1, Mul l2 r2 => beq l1 l2 && beq r1 r2
  | Div l1 r1, Div l2 r2 => beq l1 l2 && beq r1 r2
  | Pow l1 r1, Pow l2 r2 => beq l1 l2 && beq r1 r2
  | Neg a, Neg b => beq a b
  | _, _ => false

/-- Rust `Expr::eval` from `src/expr.rs`: left child first, `?` short-circuits,
`Pow` turns a NaN or infinite `powf` result into `UndefinedOperation`. -/
def eval : Expr → Bindings → Except EvalError F
  | Const c, _ => Except.ok c
  | Symbol s, vars =>
      match vars s with
      | some v => Except.ok v
      | none => Except.error (EvalError.SymbolNotFound s)
  | Add l r, vars =>
      match l.eval vars with
      | Except.error e => Except.error e
      | Except.ok a =>
          match r.eval vars with
          | Except.error e => Except.error e
          | Except.ok b => Except.ok (F.add a b)
  | Sub l r, vars =>
      match l.eval vars with
      | Except.error e => Except.error e
      | Except.ok a =>
          match r.eval vars with
          | Except.error e => Except.error e
          | Except.ok b => Except.ok (F.sub a b)
  | Mul l r, vars =>
      match l.eval vars with
      | Except.error e => Except.error e
      | Except.ok a =>
          match r.eval vars with
          | Except.error e => Except.error e
          | Except.ok b => Except.ok (F.mul a b)
  | Div l r, vars =>
      match l.eval vars with
      | Except.error e => Except.error e
      | Except.ok a =>
          match r.eval vars with
          | Except.error e => Except.error e
          | Except.ok b => Except.ok (F.div a b)
  | Pow l r, vars =>
      match l.eval vars with
      | Except.error e => Except.error e
      | Except.ok base =>
          match r.eval vars with
          | Except.error e => Except.error e
          | Except.ok ex =>
              if (F.powf base ex).isNan || (F.powf base ex).isInfinite then
                Except.error EvalError.UndefinedOperation
              else
                Except.ok (F.powf base ex)
  | Neg e, vars =>
      match e.eval vars with
      | Except.error er => Except.error er
      | Except.ok a => Except.ok (F.neg a)

/-- Is this expression a `Const` whose payload IEEE-equals `q`?  Encodes
the Rust guard pattern `Expr::Const(c) if *c == q`. -/
def isConstVal (e : Expr) (q : ℚ) : Bool :=
  match e with
  | Const c => F.feq c (F.fin q)
  | _ => false

/-- The left-hand half of the like-term or-pattern in the `Add` arm of
`simplify`:

    (Expr::Mul(c, inside), out) | (Expr::Mul(inside, c), out)
      if **inside == *out && c.is_const()

Given `m` (the candidate `Mul`) and `other` (the `out` side), returns the
constant coefficient `c` if one of the two alternatives matches, trying
them in the Rust order (`c` as first child first).  The combination of
the `c.is_const()` guard and the `c.get_const()` call in the arm body is
compiled into matching directly on `Const c`. -/
def coeffOf (m other : Expr) : Option F :=
  match m with
  | Mul a b =>
      match a, b with
      | Const c, _ =>
          if beq b other then some c
          else
            match b with
            | Const c2 => if beq a other then some c2 else none
            | _ => none
      | _, Const c2 => if beq a other then some c2 else none
      | _, _ => none
  | _ => none

/-- The right-hand half of the like-term or-pattern in the `Add` arm:

    (out, Expr::Mul(inside, c)) | (out, Expr::Mul(c, inside))
      if **inside == *out && c.is_const()

Same as `coeffOf` but the alternative with `c` as *second* child is tried
first, mirroring the Rust alternative order. -/
def coeffOfR (m other : Expr) : Option F :=
  match m with
  | Mul a b =>
      match a, b with
      | _, Const c =>
          if beq a other then some c
          else
            match a with
            | Const c2 => if beq b other then some c2 else none
            | _ => none
      | Const c2, _ => if beq b other then some c2 else none
      | _, _ => none
  | _ => none

/-- The full like-term arm of the `Add` match (`cx + x → (c+1)x`): the
four or-pattern alternatives in order, producing
`Expr::Mul(Const(c.get_const() + 1.0), out.clone())`. -/
def addLike (l r : Expr) : Option Expr :=
  match coeffOf l r with
  | some c => some (Mul (Const (F.add c (F.fin 1))) r)
  | none =>
      match coeffOfR r l with
      | some c => some (Mul (Const (F.add c (F.fin 1))) l)
      | none => none

/-- The `Add` arm of `simplify`, applied to the already-simplified
children.  Arm order as in the source: `l == r`, like-term accumulation,
constant folding, `Const(0)` identity, rebuild. -/
def addRule (l r : Expr) : Expr :=
  if beq l r then Mul (Const (F.fin 2)) l
  else
    match addLike l r with
    | some e => e
    | none =>
        match l, r with
        | Const c1, Const c2 => Const (F.add c1 c2)
        | _, _ =>
            if isConstVal l 0 then r
            else if isConstVal r 0 then l
            else Add l r

/-- The `Sub` arm of `simplify`: constant folding, then the or-pattern
`(Const(c), x) | (x, Const(c)) if *c == 0.0 => x.clone()`.  Note that the
*first* alternative collapses `0 - x` to `x`, dropping the sign. -/
def subRule (l r : Expr) : Expr :=
  match l, r with
  | Const c1, Const c2 => Const (F.sub c1 c2)
  | _, _ =>
      if isConstVal l 0 then r
      else if isConstVal r 0 then l
      else Sub l r

/-- The `Mul` arm of `simplify`, arm order as in the source: `l == r`,
exponent accumulation for equal bases, constant folding, `Const(1)`
identity, `Const(0)` annihilation, `Const(-1)` negation, rebuild.  When
both children are `Pow` with bases that are not `==`, the remaining
Rust arms (which all require a `Const` child) cannot match, so the
fall-through goes straight to the rebuild. -/
def mulRule (l r : Expr) : Expr :=
  if beq l r then Pow l (Const (F.fin 2))
  else
    match l, r with
    | Pow base1 a, Pow base2 b =>
        if beq base1 base2 then Pow base1 (Add a b) else Mul l r
    | Const c1, Const c2 => Const (F.mul c1 c2)
    | _, _ =>
        if isConstVal r 1 then l
        else if isConstVal l 1 then r
        else if isConstVal l 0 then Const (F.fin 0)
        else if isConstVal r 0 then Const (F.fin 0)
        else if isConstVal l (-1) then Neg r
        else if isConstVal r (-1) then Neg l
        else Mul l r

/-- The `Div` arm of `simplify`: constant folding, then the or-pattern
`(x, Const(c)) | (Expr::Const(c), x) if *c == 1.0 => x.clone()` — whose
*second* alternative collapses `1 / x` to `x`, dropping the reciprocal —
then `0 / x → 0`, then rebuild. -/
def divRule (l r : Expr) : Expr :=
  match l, r with
  | Const c1, Const c2 => Const (F.div c1 c2)
  | _, _ =>
      if isConstVal r 1 then l
      else if isConstVal l 1 then r
      else if isConstVal l 0 then Const (F.fin 0)
      else Div l r

/-- The `Pow` arm of `simplify`: nested-power flattening (unguarded first
arm), `x^1 → x`, `x^0 → 1`, `1^x → 1`, rebuild. -/
def powRule (l r : Expr) : Expr :=
  match l with
  | Pow base p1 => Pow base (Mul p1 r)
  | _ =>
      if isConstVal r 1 then l
      else if isConstVal r 0 then Const (F.fin 1)
      else if isConstVal l 1 then Const (F.fin 1)
      else Pow l r

/-- Rust `Expr::simplify` from `src/simplify.rs`: one bottom-up pass — children
first, then the node's own rule.  The catch-all arm `_ => self.clone()`
returns `Const`, `Symbol` and `Neg` nodes unchanged; in particular a
`Neg` node's child is *not* recursively simplified. -/
def simplify : Expr → Expr
  | Add l r => addRule l.simplify r.simplify
  | Sub l r => subRule l.simplify r.simplify
  | Mul l r => mulRule l.simplify r.simplify
  | Div l r => divRule l.simplify r.simplify
  | Pow l r => powRule l.simplify r.simplify
  | e => e

/-- Does the expression contain a `Const` whose payload is NaN? -/
def containsNan : Expr → Bool
  | Const c => c.isNan
  | Symbol _ => false
  | Add l r => l.containsNan || r.containsNan
  | Sub l r => l.containsNan || r.containsNan
  | Mul l r => l.containsNan || r.containsNan
  | Div l r => l.containsNan || r.containsNan
  | Pow l r => l.containsNan || r.containsNan
  | Neg e => e.containsNan

/-- Termination measure for `expand`: multiplicative in `Mul` nodes,
additive elsewhere, with leaves weighted `2`.  Distributing
`(a + b) * c` to `a*c + b*c` strictly decreases this measure even after
the factors have been rewritten by recursive expansion (which never
increases it), which is exactly what the nested recursive call in the
`Mul` arm of `expand` needs. -/
def esize : Expr → ℕ
  | Const _ => 2
  | Symbol _ => 2
  | Add l r => esize l + esize r + 1
  | Sub l r => esize l + esize r + 1
  | Mul l r => esize l * esize r
  | Div l r => esize l + esize r + 1
  | Pow l r => esize l + esize r + 1
  | Neg e => esize e + 1

theorem two_le_esize : ∀ e : Expr, 2 ≤ e.esize := by
  intro e
  induction e with
  | Const c => exact le_refl 2
  | Symbol s => exact le_refl 2
  | Add l r ihl ihr => simp [esize]; omega
  | Sub l r ihl ihr => simp [esize]; omega
  | Mul l r ihl ihr =>
      simp only [esize]
      calc 2 ≤ 2 * 2 := by omega
      _ ≤ l.esize * r.esize := Nat.mul_le_mul ihl ihr
  | Div l r ihl ihr => simp [esize]; omega
  | Pow l r ihl ihr => simp [esize]; omega
  | Neg e ih => simp [esize]; omega

/-- Arithmetic core of the termination argument: if the (expanded) left
factor is a sum `a + b` whose measure is bounded by the original left
factor `l`, and the (expanded) right factor `c` is bounded by the
original `r`, then the distributed sum of products is strictly smaller
than the original product. -/
theorem distrib_lt_left {ea eb ec el er : ℕ}
    (hc : 2 ≤ ec) (hr : ec ≤ er)
    (hl : ea + eb + 1 ≤ el) :
    ea * ec + eb * ec + 1 < el * er := by
  have h1 : (ea + eb + 1) * er ≤ el * er := Nat.mul_le_mul_right er hl
  have h2 : (ea + eb) * ec + er ≤ (ea + eb + 1) * er := by
    have : (ea + eb) * ec ≤ (ea + eb) * er := Nat.mul_le_mul_left _ hr
    nlinarith
  have h3 : 2 ≤ er := le_trans hc hr
  nlinarith [Nat.mul_le_mul_left (ea + eb) hr]

/-- Mirror image of `distrib_lt_left` for a distributable *right* factor. -/
theorem distrib_lt_right {ea eb ec el er : ℕ}
    (hc : 2 ≤ ec) (hl : ec ≤ el)
    (hr : ea + eb + 1 ≤ er) :
    ea * ec + eb * ec + 1 < el * er := by
  have := distrib_lt_left hc hl hr
  nlinarith [distrib_lt_left hc hl hr]

/-- Rust `Expr::expand` from `src/expr/expansion.rs`, paired with the proof
that it never increases `esize` — the bound is needed *during* the
definition, because the `Mul` arm re-invokes expansion on the freshly
built sum (or difference) of products, which is not a subterm of the
input.  The match arms mirror the Rust arms in order: distribute over an
`Add` on either side (building `a*c + b*c` and re-expanding), then over
a `Sub` on either side (building `c*a - c*b` and re-expanding), else
keep the `Mul` of the expanded children; other binary nodes are rebuilt
from expanded children; the catch-all returns `Const`, `Symbol` and
`Neg` unchanged. -/
def expandAux : (e : Expr) → { r : Expr // r.esize ≤ e.esize }
  | Mul l r =>
      match expandAux l, expandAux r with
      | ⟨Add a b, hl⟩, ⟨c, hc⟩ =>
          have key : (Add (Mul a c) (Mul b c)).esize < (Mul l r).esize := by
            simp only [esize] at hl ⊢
            exact distrib_lt_left (two_le_esize c) hc hl
          let ⟨s, hs⟩ := expandAux (Add (Mul a c) (Mul b c))
          ⟨s, le_of_lt (lt_of_le_of_lt hs key)⟩
      | ⟨c, hc⟩, ⟨Add a b, hr⟩ =>
          have key : (Add (Mul a c) (Mul b c)).esize < (Mul l r).esize := by
            simp only [esize] at hr ⊢
            exact distrib_lt_right (two_le_esize c) hc hr
          let ⟨s, hs⟩ := expandAux (Add (Mul a c) (Mul b c))
          ⟨s, le_of_lt (lt_of_le_of_lt hs key)⟩
      | ⟨Sub a b, hl⟩, ⟨c, hc⟩ =>
          have key : (Sub (Mul c a) (Mul c b)).esize < (Mul l r).esize := by
            simp only [esize] at hl ⊢
            have := distrib_lt_left (two_le_esize c) hc hl
            calc c.esize * a.esize + c.esize * b.esize + 1
                = a.esize * c.esize + b.esize * c.esize + 1 := by ring
            _ < l.esize * r.esize := this
          let ⟨s, hs⟩ := expandAux (Sub (Mul c a) (Mul c b))
          ⟨s, le_of_lt (lt_of_le_of_lt hs key)⟩
      | ⟨c, hc⟩, ⟨Sub a b, hr⟩ =>
          have key : (Sub (Mul c a) (Mul c b)).esize < (Mul l r).esize := by
            simp only [esize] at hr ⊢
            have := distrib_lt_right (two_le_esize c) hc hr
            calc c.esize * a.esize + c.esize * b.esize + 1
                = a.esize * c.esize + b.esize * c.esize + 1 := by ring
            _ < l.esize * r.esize := this
          let ⟨s, hs⟩ := expandAux (Sub (Mul c a) (Mul c b))
          ⟨s, le_of_lt (lt_of_le_of_lt hs key)⟩
      | ⟨l2, hl⟩, ⟨r2, hr⟩ =>
          ⟨Mul l2 r2, by
            simp only [esize]
            exact Nat.mul_le_mul hl hr⟩
  | Add l r =>
      let ⟨l2, hl⟩ := expandAux l
      let ⟨r2, hr⟩ := expandAux r
      ⟨Add l2 r2, by simp only [esize]; omega⟩
  | Sub l r =>
      let ⟨l2, hl⟩ := expandAux l
      let ⟨r2, hr⟩ := expandAux r
      ⟨Sub l2 r2, by simp only [esize]; omega⟩
  | Div l r =>
      let ⟨l2, hl⟩ := expandAux l
      let ⟨r2, hr⟩ := expandAux r
      ⟨Div l2 r2, by simp only [esize]; omega⟩
  | Pow l r =>
      let ⟨l2, hl⟩ := expandAux l
      let ⟨r2, hr⟩ := expandAux r
      ⟨Pow l2 r2, by simp only [esize]; omega⟩
  | Const c => ⟨Const c, le_refl _⟩
  | Symbol s => ⟨Symbol s, le_refl _⟩
  | Neg e => ⟨Neg e, le_refl _⟩
termination_by e => e.esize
decreasing_by
  all_goals simp only [esize]
  · have h2 := two_le_esize r
    have h1 := two_le_esize l
    nlinarith
  · have h2 := two_le_esize r
    have h1 := two_le_esize l
    nlinarith
  · exact key
  · exact key
  · exact key
  · exact key
  · omega
  · omega
  · omega
  · omega
  · omega
  · omega
  · omega
  · omega

/-- Rust `Expr::expand`: the computational content of `expandAux`. -/
def expand (e : Expr) : Expr := (expandAux e).1

end Expr

deriving instance DecidableEq for Except

/-- Evaluating the model `powf` at base `-1.0`, exponent `0.5`: a negative
finite base with a non-integer exponent yields NaN. -/
theorem powf_neg_one_half : F.powf (F.fin (-1)) (F.fin (1/2)) = F.nan := by
  have hden : ((1 : ℚ)/2).den = 2 := by norm_num
  simp only [F.powf]
  norm_num [hden]

/-- The binding map `{x ↦ 1.0}`. -/
def xIsOne : Bindings := fun s => if s = ⟨"x"⟩ then some (F.fin 1) else none

/-- The empty binding map. -/
def emptyBindings : Bindings := fun _ => none

/-- C1: the claim "eval(e, b) = Ok(v) implies eval(simplify(e), b) = Ok(v)"
fails on the code.  At `e = Sub(Const(0), Var("x"))` with `{x ↦ 1}`,
`eval e = Ok(-1)`, but `simplify` collapses `0 - x` to `x` (first
alternative of the `Sub` arm's zero or-pattern), whose value is `Ok(1)`. -/
theorem c1_simplify_changes_value :
    Expr.eval (Expr.Sub (Expr.Const (F.fin 0)) (Expr.Symbol ⟨"x"⟩)) xIsOne
      = Except.ok (F.fin (-1))
    ∧ Expr.simplify (Expr.Sub (Expr.Const (F.fin 0)) (Expr.Symbol ⟨"x"⟩))
      = Expr.Symbol ⟨"x"⟩
    ∧ Expr.eval (Expr.simplify (Expr.Sub (Expr.Const (F.fin 0)) (Expr.Symbol ⟨"x"⟩))) xIsOne
      = Except.ok (F.fin 1) := by
  refine ⟨?_, by decide, by decide⟩
  have h : (0 : ℚ) - 1 = -1 := by norm_num
  simp [Expr.eval, xIsOne, F.sub, h]

/-- C2: the subtrahend half of the claim holds (`x - 0 → x`), but the code
*also* collapses `0 - x` to `x`: the or-pattern
`(Const(c), x) | (x, Const(c)) if *c == 0.0 => x.clone()` fires on its
first alternative, dropping the sign. -/
theorem c2_zero_sub_collapsed :
    Expr.simplify (Expr.Sub (Expr.Symbol ⟨"y"⟩) (Expr.Const (F.fin 0)))
      = Expr.Symbol ⟨"y"⟩
    ∧ Expr.simplify (Expr.Sub (Expr.Const (F.fin 0)) (Expr.Symbol ⟨"y"⟩))
      = Expr.Symbol ⟨"y"⟩ := by
  refine ⟨by decide, by decide⟩

/-- C3: the divisor half of the claim holds (`x / 1 → x`), but the code
*also* collapses `1 / x` to `x`: the or-pattern
`(x, Const(c)) | (Const(c), x) if *c == 1.0 => x.clone()` fires on its
second alternative, dropping the reciprocal. -/
theorem c3_one_div_collapsed :
    Expr.simplify (Expr.Div (Expr.Symbol ⟨"y"⟩) (Expr.Const (F.fin 1)))
      = Expr.Symbol ⟨"y"⟩
    ∧ Expr.simplify (Expr.Div (Expr.Const (F.fin 1)) (Expr.Symbol ⟨"y"⟩))
      = Expr.Symbol ⟨"y"⟩ := by
  refine ⟨by decide, by decide⟩

/-- C4 counterexample: with `a = b = 2.0` the `Add` arm's first rule
(`l == r → Mul(Const(2), l)`) fires before constant folding, so
`simplify(Add(Const(2), Const(2)))` is `Mul(Const(2), Const(2))`, not
`Const(4)`. -/
theorem c4_counterexample :
    Expr.simplify (Expr.Add (Expr.Const (F.fin 2)) (Expr.Const (F.fin 2)))
      ≠ Expr.Const (F.add (F.fin 2) (F.fin 2)) := by
  decide

/-- C4 amended: folding `Add(Const(a), Const(b))` to `Const(a+b)` happens
exactly when `a` and `b` are *not* IEEE-equal; when `a == b` the
higher-priority `l == r` rule yields `Mul(Const(2), Const(a))` instead.
(Two NaN constants still fold, since `NaN == NaN` is false.) -/
theorem c4_add_const_fold :
    ∀ a b : F,
      Expr.simplify (Expr.Add (Expr.Const a) (Expr.Const b))
        = if F.feq a b
          then Expr.Mul (Expr.Const (F.fin 2)) (Expr.Const a)
          else Expr.Const (F.add a b) := by
  intro a b
  cases h : F.feq a b <;>
    simp [Expr.simplify, Expr.addRule, Expr.addLike, Expr.coeffOf,
      Expr.coeffOfR, Expr.beq, h]

/-- C5: `Pow` evaluation converts non-finite results into
`UndefinedOperation`: whenever both children evaluate successfully, the
node returns an error exactly when `powf` gives NaN or an infinity, and
`Ok(powf base exp)` otherwise; in particular `(-1)^0.5` fails with
`UndefinedOperation` under every binding map. -/
theorem c5_pow_nonfinite_error :
    (∀ (l r : Expr) (vars : Bindings) (base ex : F),
        Expr.eval l vars = Except.ok base →
        Expr.eval r vars = Except.ok ex →
        Expr.eval (Expr.Pow l r) vars
          = if (F.powf base ex).isNan || (F.powf base ex).isInfinite
            then Except.error EvalError.UndefinedOperation
            else Except.ok (F.powf base ex))
    ∧ (∀ vars : Bindings,
        Expr.eval (Expr.Pow (Expr.Const (F.fin (-1))) (Expr.Const (F.fin (1/2)))) vars
          = Except.error EvalError.UndefinedOperation) := by
  constructor
  · intro l r vars base ex hl hr
    simp [Expr.eval, hl, hr]
  · intro vars
    simp only [Expr.eval]
    rw [powf_neg_one_half]
    decide

/-- C5 witness: the general part of `c5_pow_nonfinite_error` applied at
`Pow(Const(2), Const(3))` under the empty binding map. -/
theorem c5_witness :
    Expr.eval (Expr.Pow (Expr.Const (F.fin 2)) (Expr.Const (F.fin 3))) emptyBindings
      = if (F.powf (F.fin 2) (F.fin 3)).isNan || (F.powf (F.fin 2) (F.fin 3)).isInfinite
        then Except.error EvalError.UndefinedOperation
        else Except.ok (F.powf (F.fin 2) (F.fin 3)) :=
  c5_pow_nonfinite_error.1 (Expr.Const (F.fin 2)) (Expr.Const (F.fin 3))
    emptyBindings (F.fin 2) (F.fin 3) rfl rfl

/-- C6: evaluating a variable absent from the bindings fails with
`SymbolNotFound` carrying that symbol. -/
theorem c6_symbol_not_found :
    ∀ (s : Symbol) (vars : Bindings), vars s = none →
      Expr.eval (Expr.Symbol s) vars
        = Except.error (EvalError.SymbolNotFound s) := by
  intro s vars h
  simp [Expr.eval, h]

/-- C6 witness: `Var("x")` under the empty binding map. -/
theorem c6_witness :
    Expr.eval (Expr.Symbol ⟨"x"⟩) emptyBindings
      = Except.error (EvalError.SymbolNotFound ⟨"x"⟩) :=
  c6_symbol_not_found ⟨"x"⟩ emptyBindings rfl

/-- C7 counterexample: the claim `simplify(Neg(e)) = Neg(simplify(e))`
fails at `e = Add(Const(1), Const(2))`: the catch-all arm
`_ => self.clone()` returns the `Neg` node without touching its child,
while `simplify(e)` folds the sum to `Const(3)`. -/
theorem c7_counterexample :
    Expr.simplify (Expr.Neg (Expr.Add (Expr.Const (F.fin 1)) (Expr.Const (F.fin 2))))
      ≠ Expr.Neg (Expr.simplify (Expr.Add (Expr.Const (F.fin 1)) (Expr.Const (F.fin 2)))) := by
  decide

/-- C7 amended: `simplify` returns `Neg` nodes completely unchanged — the
child is *not* recursively simplified, because `Neg` is handled by the
catch-all arm `_ => self.clone()`. -/
theorem c7_neg_unchanged :
    ∀ e : Expr, Expr.simplify (Expr.Neg e) = Expr.Neg e := by
  intro e
  simp [Expr.simplify]

/-- C8: a single simplify pass flattens a nested power, building the
combined exponent `Mul(Var("b"), Var("c"))` without simplifying it
further. -/
theorem c8_nested_pow_flatten :
    Expr.simplify
        (Expr.Pow (Expr.Pow (Expr.Symbol ⟨"a"⟩) (Expr.Symbol ⟨"b"⟩)) (Expr.Symbol ⟨"c"⟩))
      = Expr.Pow (Expr.Symbol ⟨"a"⟩) (Expr.Mul (Expr.Symbol ⟨"b"⟩) (Expr.Symbol ⟨"c"⟩)) := by
  decide

/-- C9: `expand` is total.  The definition is accepted by well-founded
recursion on the multiplicative measure `esize`, which strictly decreases
at the nested recursive call on the freshly built sum (or difference) of
products; as a corollary, every expansion is bounded by the measure of
its input. -/
theorem c9_expand_total : ∀ e : Expr, (Expr.expand e).esize ≤ e.esize :=
  fun e => (Expr.expandAux e).2

/-- C10: the derived structural equality is not reflexive at NaN — on any
expression containing a NaN constant, `e == e` is `false` — and
consequently the like-term rules guarded by `l == r` do not fire on such
operands: both `NaN + NaN` and `NaN * NaN` fall through to constant
folding (giving `Const(NaN)`) instead of becoming `Mul(Const(2), ·)` or
`Pow(·, Const(2))`. -/
theorem c10_nan_not_reflexive :
    (∀ e : Expr, e.containsNan = true → Expr.beq e e = false)
    ∧ Expr.simplify (Expr.Add (Expr.Const F.nan) (Expr.Const F.nan)) = Expr.Const F.nan
    ∧ Expr.simplify (Expr.Mul (Expr.Const F.nan) (Expr.Const F.nan)) = Expr.Const F.nan := by
  refine ⟨?_, by decide, by decide⟩
  intro e
  induction e with
  | Const c => intro h; cases c <;> simp_all [Expr.containsNan, F.isNan, Expr.beq, F.feq]
  | Symbol s => intro h; simp [Expr.containsNan] at h
  | Add l r ihl ihr =>
      intro h
      simp only [Expr.containsNan, Bool.or_eq_true] at h
      rcases h with h | h
      · simp [Expr.beq, ihl h]
      · simp [Expr.beq, ihr h]
  | Sub l r ihl ihr =>
      intro h
      simp only [Expr.containsNan, Bool.or_eq_true] at h
      rcases h with h | h
      · simp [Expr.beq, ihl h]
      · simp [Expr.beq, ihr h]
  | Mul l r ihl ihr =>
      intro h
      simp only [Expr.containsNan, Bool.or_eq_true] at h
      rcases h with h | h
      · simp [Expr.beq, ihl h]
      · simp [Expr.beq, ihr h]
  | Div l r ihl ihr =>
      intro h
      simp only [Expr.containsNan, Bool.or_eq_true] at h
      rcases h with h | h
      · simp [Expr.beq, ihl h]
      · simp [Expr.beq, ihr h]
  | Pow l r ihl ihr =>
      intro h
      simp only [Expr.containsNan, Bool.or_eq_true] at h
      rcases h with h | h
      · simp [Expr.beq, ihl h]
      · simp [Expr.beq, ihr h]
  | Neg e ih =>
      intro h
      simp only [Expr.containsNan] at h
      simp [Expr.beq, ih h]

/-- C10 witness: `Const(NaN)` is not `==`-equal to itself. -/
theorem c10_witness :
    Expr.beq (Expr.Const F.nan) (Expr.Const F.nan) = false :=
  c10_nan_not_reflexive.1 (Expr.Const F.nan) rfl

end SymbolicMath
